import Mathlib

set_option linter.unusedVariables false

/-! Shallow embedding of `scan-deps.py`, the Hoon dependency scanner:
file discovery, header import extraction, dependency resolution, graph
construction and package-record emission.

Python strings are modelled as Lean `String` values; the Python string
operations the script uses (`strip`, `split`, `startswith`, `endswith`,
`in`, `join`, slicing) are given explicit character-list models below,
named with a `py` marker.  Warnings the script prints to stderr are
modelled as an explicit `Diag` list returned next to each result. -/

/-- isPySpace models the ASCII whitespace recognized by Python's
`str.strip()` and `str.split()`. -/
def isPySpace (c : Char) : Bool :=
  c == ' ' || c == '\t' || c == '\n' || c == '\r' || c == '\x0b' || c == '\x0c'

/-- stripChars models Python `str.strip()` on the character list. -/
def stripChars (l : List Char) : List Char :=
  ((l.dropWhile isPySpace).reverse.dropWhile isPySpace).reverse

/-- pyStrip models Python `s.strip()`. -/
def pyStrip (s : String) : String := ⟨stripChars s.data⟩

/-- splitChar models Python `s.split(sep)` with a one-character
separator: each separator occurrence delimits a (possibly empty) chunk,
so the result is always non-empty. -/
def splitChar (c : Char) : List Char → List (List Char)
  | [] => [[]]
  | x :: xs =>
    if x = c then [] :: splitChar c xs
    else (x :: (splitChar c xs).headD []) :: (splitChar c xs).tail

/-- pySplit models Python `s.split(c)` for a one-character separator. -/
def pySplit (c : Char) (s : String) : List String :=
  (splitChar c s.data).map String.mk

/-- wsSplitAux models Python `s.split()` (no argument): whitespace runs
separate words, leading and trailing whitespace is ignored; `acc` holds
the reversed characters of the word currently being read. -/
def wsSplitAux : List Char → List Char → List (List Char)
  | [], acc => if acc.isEmpty then [] else [acc.reverse]
  | c :: cs, acc =>
    if isPySpace c then
      if acc.isEmpty then wsSplitAux cs [] else acc.reverse :: wsSplitAux cs []
    else
      wsSplitAux cs (c :: acc)

/-- pySplitWs models Python `s.split()` with no argument. -/
def pySplitWs (s : String) : List String :=
  (wsSplitAux s.data []).map String.mk

/-- pyJoin models Python `sep.join(parts)`. -/
def pyJoin (sep : String) : List String → String
  | [] => ""
  | [x] => x
  | x :: y :: rest => x ++ sep ++ pyJoin sep (y :: rest)

/-- pyStartsWith models Python `s.startswith(p)`. -/
def pyStartsWith (p s : String) : Prop := p.data <+: s.data

instance (p s : String) : Decidable (pyStartsWith p s) :=
  inferInstanceAs (Decidable (p.data <+: s.data))

/-- pyEndsWith models Python `s.endswith(p)`. -/
def pyEndsWith (p s : String) : Prop := p.data <:+ s.data

instance (p s : String) : Decidable (pyEndsWith p s) :=
  inferInstanceAs (Decidable (p.data <:+ s.data))

/-- pyContainsChar models Python `c in s` for a one-character needle. -/
def pyContainsChar (c : Char) (s : String) : Prop := c ∈ s.data

instance (c : Char) (s : String) : Decidable (pyContainsChar c s) :=
  inferInstanceAs (Decidable (c ∈ s.data))

/-- pyDrop models Python slicing `s[n:]` (counting characters). -/
def pyDrop (n : Nat) (s : String) : String := ⟨s.data.drop n⟩

/-- FileContent models what `open` plus line iteration yields for one
file: the lines successfully read (without trailing newlines, which the
script's `strip` discards anyway) and a flag `truncated` that is true
when reading past those lines raises an exception (unreadable file: no
lines and `truncated` true; decode error in mid-file: some lines, then
`truncated` true). -/
structure FileContent where
  lines : List String
  truncated : Bool
deriving DecidableEq, Repr

/-- Diag models the warnings the script prints to stderr. -/
inductive Diag where
  | readFail
  | ambiguous (dep : String) (dir : String) (candidates : List String)
  | unresolved (dep : String) (key : String)
deriving DecidableEq, Repr

/-- FileInfo models the `(full_path, install_path, filename)` value of
the `files` dict, with the path replaced by the file's content (the
path's only use in the script is reading the content). -/
structure FileInfo where
  content : FileContent
  installPath : String
  filename : String
deriving DecidableEq, Repr

/-- FilesMap models the Python `files` dict as an association list in
insertion order (Python dicts iterate in insertion order). -/
abbrev FilesMap := List (String × FileInfo)

/-- keysOf models `files.keys()` (in iteration order). -/
def keysOf (files : FilesMap) : List String := files.map (·.1)

/-- dictInsert models `d[k] = v` on a Python dict held as an ordered
association list: an existing key keeps its position and receives the
new value, a new key is appended at the end. -/
def dictInsert (k : String) (v : FileInfo) (d : FilesMap) : FilesMap :=
  if k ∈ keysOf d then d.map (fun e => if e.1 = k then (k, v) else e)
  else d ++ [(k, v)]

/-- parseSpecifier models the body of the `for d in dep_str.split(',')`
loop in `get_dependencies`: strip the specifier, drop a leading `*`,
on an `=` keep the part after the last `=` (stripped), and drop the
result when it is empty. -/
def parseSpecifier (d : String) : Option String :=
  let d1 := pyStrip d
  let d2 := if pyStartsWith "*" d1 then pyDrop 1 d1 else d1
  let d3 := if pyContainsChar '=' d2 then pyStrip ((pySplit '=' d2).getLastD "") else d2
  if d3 ≠ "" then some d3 else none

/-- lineTokens models the directive-parsing part of one loop iteration
of `get_dependencies`, applied to an already-stripped, non-blank,
non-comment header line: `headD ""` is `parts[0]` (the `""` default
covers the code's `if not parts: continue` guard, which likewise emits
nothing) and `tail` is `parts[1:]`. -/
def lineTokens (l : String) : List String :=
  if (pySplitWs l).headD "" = "/+" ∨ (pySplitWs l).headD "" = "/-" ∨
      (pySplitWs l).headD "" = "/#" then
    (pySplit ',' (pyJoin " " (pySplitWs l).tail)).filterMap parseSpecifier
  else if (pySplitWs l).headD "" = "/=" then
    match (pySplitWs l).tail with
    | _ :: path :: _ =>
      let path1 := if pyStartsWith "/" path then pyDrop 1 path else path
      if path1 ≠ "" then [path1] else []
    | _ => []
  else []

/-- getDepsAux models the line loop of `get_dependencies`; `truncated`
records whether an exception fires once the listed lines are exhausted
(the `except` block catches it and prints one warning). -/
def getDepsAux : List String → Bool → List String × List Diag
  | [], truncated => ([], if truncated then [Diag.readFail] else [])
  | line :: rest, truncated =>
    let l := pyStrip line
    if l = "" then getDepsAux rest truncated
    else if ¬ (pyStartsWith "/" l ∨ pyStartsWith "::" l) then ([], [])
    else if pyStartsWith "::" l then getDepsAux rest truncated
    else
      let r := getDepsAux rest truncated
      (lineTokens l ++ r.1, r.2)

/-- get_dependencies models the Python function of the same name: it
returns the extracted raw dependency tokens in order, together with the
warnings printed. -/
def get_dependencies (c : FileContent) : List String × List Diag :=
  getDepsAux c.lines c.truncated

/-- discoveredEntry models the per-file body of `find_hoon_files`'s
walk loop: from the file's subdirectory segments (relative to the scan
root) and name stem it computes the package key (`rel_dir_str` plus
stem) and the install path (scan directory name plus `rel_dir_str`). -/
def discoveredEntry (scanDirName : String)
    (f : List String × String × FileContent) : String × FileInfo :=
  let relDirStr := pyJoin "/" f.1
  let stem := f.2.1
  let packageKey := if relDirStr ≠ "" then relDirStr ++ "/" ++ stem else stem
  let installPath := if relDirStr ≠ "" then scanDirName ++ "/" ++ relDirStr else scanDirName
  (packageKey, ⟨f.2.2, installPath, stem ++ ".hoon"⟩)

/-- find_hoon_files models the Python function of the same name.  The
filesystem walk itself is I/O; its result is the input here: one entry
per discovered file, as (subdirectory segments relative to the scan
root, name stem, content), in enumeration order.  The function computes
each file's package key and install path and fills the dict. -/
def find_hoon_files (scanDirName : String)
    (found : List (List String × String × FileContent)) : FilesMap :=
  found.foldl (fun d f =>
    dictInsert (discoveredEntry scanDirName f).1 (discoveredEntry scanDirName f).2 d) []

/-- sameDirKey is the rule-2 candidate `f"{current_file_dir}/{dep_name}"`. -/
def sameDirKey (dir dep : String) : String := dir ++ "/" ++ dep

/-- siblingKey is the rule-4 candidate `f"{parent}/{dep_name}"` with
`parent = '/'.join(current_file_dir.split('/')[:-1])`. -/
def siblingKey (dir dep : String) : String :=
  pyJoin "/" ((pySplit '/' dir).dropLast) ++ "/" ++ dep

/-- globalMatches models rule 5's candidate collection
`[k for k in files.keys() if k.endswith("/" + dep) or k == dep]`. -/
def globalMatches (files : FilesMap) (dep : String) : List String :=
  (keysOf files).filter (fun k => decide (pyEndsWith ("/" ++ dep) k ∨ k = dep))

/-- globalSearch models rule 5 of `resolve_dependency` ("last resort:
search all files for matching basename"): zero matches fail, one match
is returned, several matches print a warning listing them all and the
first match (in `files.keys()` iteration order) is returned. -/
def globalSearch (dep dir : String) (files : FilesMap) : Option String × List Diag :=
  let ms := globalMatches files dep
  match ms with
  | [] => (none, [])
  | [m] => (some m, [])
  | m :: _ :: _ => (some m, [Diag.ambiguous dep dir ms])

/-- resolveBare models rules 2 to 5 of `resolve_dependency` (everything
after the full-path check), returning the resolved key (if any) and the
warnings printed. -/
def resolveBare (dep dir : String) (files : FilesMap) : Option String × List Diag :=
  if dir ≠ "" ∧ sameDirKey dir dep ∈ keysOf files then (some (sameDirKey dir dep), [])
  else if dep ∈ keysOf files then (some dep, [])
  else if dir ≠ "" ∧ 1 < (pySplit '/' dir).length ∧ siblingKey dir dep ∈ keysOf files then
    (some (siblingKey dir dep), [])
  else globalSearch dep dir files

/-- resolve_dependency models the Python function of the same name. -/
def resolve_dependency (depName dir : String) (files : FilesMap) :
    Option String × List Diag :=
  if pyContainsChar '/' depName ∧ depName ∈ keysOf files then (some depName, [])
  else
    let bare := if pyContainsChar '/' depName then (pySplit '/' depName).getLastD ""
                else depName
    resolveBare bare dir files

/-- resolveKey is the key component of `resolve_dependency`'s outcome. -/
def resolveKey (depName dir : String) (files : FilesMap) : Option String :=
  (resolve_dependency depName dir files).1

/-- stripScanPfx models the scan-directory-name stripping performed on
each raw token inside `build_dependency_graph`. -/
def stripScanPfx (scanDirName dep : String) : String :=
  if pyStartsWith (scanDirName ++ "/") dep then pyDrop (scanDirName.length + 1) dep
  else dep

/-- resolveToken is one iteration of the token loop of
`build_dependency_graph`: strip the scan-directory prefix, then call
`resolve_dependency` with the importing file's install directory. -/
def resolveToken (scanDirName : String) (files : FilesMap) (dir tok : String) :
    Option String × List Diag :=
  resolve_dependency (stripScanPfx scanDirName tok) dir files

/-- resolveAll folds `resolveToken` over one file's raw tokens, keeping
successes in order and recording one warning per unresolved token. -/
def resolveAll (scanDirName : String) (files : FilesMap) (dir fullKey : String) :
    List String → List String × List Diag
  | [] => ([], [])
  | t :: ts =>
    let r := resolveToken scanDirName files dir t
    let rest := resolveAll scanDirName files dir fullKey ts
    match r.1 with
    | some k => (k :: rest.1, r.2 ++ rest.2)
    | none =>
      (rest.1, r.2 ++ [Diag.unresolved (stripScanPfx scanDirName t) fullKey] ++ rest.2)

/-- buildAux iterates `build_dependency_graph`'s file loop over the
entry list `l`, resolving against the complete map `files`. -/
def buildAux (scanDirName : String) (files : FilesMap) :
    List (String × FileInfo) → List (String × List String) × List Diag
  | [] => ([], [])
  | (k, info) :: rest =>
    let d := get_dependencies info.content
    let r := resolveAll scanDirName files info.installPath k d.1
    let b := buildAux scanDirName files rest
    ((k, r.1) :: b.1, d.2 ++ r.2 ++ b.2)

/-- build_dependency_graph models the Python function of the same name
(the scan directory enters only through its basename). -/
def build_dependency_graph (files : FilesMap) (scanDirName : String) :
    List (String × List String) × List Diag :=
  buildAux scanDirName files files

/-- pyStrLeChars models Python string comparison (lexicographic by
Unicode code point) on character lists. -/
def pyStrLeChars : List Char → List Char → Bool
  | [], _ => true
  | _ :: _, [] => false
  | a :: as, b :: bs =>
    if a.toNat < b.toNat then true
    else if b.toNat < a.toNat then false
    else pyStrLeChars as bs

/-- pyStrLe models Python `a <= b` on strings. -/
def pyStrLe (a b : String) : Bool := pyStrLeChars a.data b.data

/-- PackageRecord models one `[[package]]` section of the manifest. -/
structure PackageRecord where
  name : String
  workspace : String
  path : String
  file : String
  dependencies : List String
deriving DecidableEq, Repr

/-- insertSorted inserts one entry into a key-sorted entry list. -/
def insertSorted (x : String × FileInfo) : FilesMap → FilesMap
  | [] => [x]
  | y :: ys => if pyStrLe x.1 y.1 then x :: y :: ys else y :: insertSorted x ys

/-- sortByKey models `sorted(files.items(), key=lambda x: x[0])`. -/
def sortByKey (l : FilesMap) : FilesMap := l.foldr insertSorted []

/-- lookupGraph models `graph.get(k)` on the graph's association list. -/
def lookupGraph (g : List (String × List String)) (k : String) : Option (List String) :=
  (g.find? (fun e => e.1 == k)).map (·.2)

/-- generate_registry_packages models the `[[package]]` records emitted
by `generate_registry_toml` (the TOML text rendering, workspace header
and alias records are plain serialization and are not modelled). -/
def generate_registry_packages (workspaceName : String) (files : FilesMap)
    (graph : List (String × List String)) : List PackageRecord :=
  (sortByKey files).map (fun e =>
    { name := workspaceName ++ "/" ++ e.1
      workspace := workspaceName
      path := e.2.installPath
      file := e.2.filename
      dependencies := ((lookupGraph graph e.1).getD []).map
        (fun d => workspaceName ++ "/" ++ d) })

/-- isImportDirective states the spec's notion of an import directive:
a line whose first whitespace-separated token is one of the four
recognized markers. -/
def isImportDirective (line : String) : Prop :=
  (pySplitWs (pyStrip line)).headD "" ∈ (["/+", "/-", "/#", "/="] : List String)

instance (line : String) : Decidable (isImportDirective line) :=
  inferInstanceAs (Decidable (_ ∈ _))

/-- specifierTokenOfClaim restates the claimed per-specifier rule in
its own words: the specifier (trimmed of whitespace) has a leading
wildcard marker stripped; if it contains an assignment form only the
right-hand alias is kept as the token; otherwise it is kept as is;
empty specifiers produce no token. -/
def specifierTokenOfClaim (d : String) : Option String :=
  let trimmed := pyStrip d
  let destarred := if pyStartsWith "*" trimmed then pyDrop 1 trimmed else trimmed
  if pyContainsChar '=' destarred then
    let rhs := pyStrip ((pySplit '=' destarred).getLastD "")
    if rhs = "" then none else some rhs
  else if destarred = "" then none else some destarred

/-- rootOrGlobalKey states resolution by the root-level rule followed
by the global suffix search only, bypassing the same-directory and
sibling-directory rules; C9 shows bare-name resolution degenerates to
this whenever no key starts with the scan root's name. -/
def rootOrGlobalKey (dep dir : String) (files : FilesMap) : Option String :=
  if dep ∈ keysOf files then some dep else (globalSearch dep dir files).1

/-! Helper lemmas shared by the claim theorems. -/

lemma mem_globalMatches {files : FilesMap} {dep m : String}
    (h : m ∈ globalMatches files dep) : m ∈ keysOf files :=
  (List.mem_filter.mp h).1

lemma globalSearch_mem {dep dir : String} {files : FilesMap} {k : String}
    (h : (globalSearch dep dir files).1 = some k) : k ∈ keysOf files := by
  unfold globalSearch at h
  cases hms : globalMatches files dep with
  | nil => rw [hms] at h; simp at h
  | cons m rest =>
    cases rest with
    | nil =>
      rw [hms] at h
      obtain rfl : m = k := by injection h
      exact mem_globalMatches (hms ▸ List.mem_cons_self m [])
    | cons m2 rest2 =>
      rw [hms] at h
      obtain rfl : m = k := by injection h
      exact mem_globalMatches (hms ▸ List.mem_cons_self m (m2 :: rest2))

lemma resolveBare_mem {dep dir : String} {files : FilesMap} {k : String}
    (h : (resolveBare dep dir files).1 = some k) : k ∈ keysOf files := by
  unfold resolveBare at h
  split_ifs at h with h1 h2 h3
  · obtain rfl : sameDirKey dir dep = k := by injection h
    exact h1.2
  · obtain rfl : dep = k := by injection h
    exact h2
  · obtain rfl : siblingKey dir dep = k := by injection h
    exact h3.2.2
  · exact globalSearch_mem h

lemma resolveKey_mem {depName dir : String} {files : FilesMap} {k : String}
    (h : resolveKey depName dir files = some k) : k ∈ keysOf files := by
  unfold resolveKey resolve_dependency at h
  by_cases h1 : pyContainsChar '/' depName ∧ depName ∈ keysOf files
  · rw [if_pos h1] at h
    obtain rfl : depName = k := by injection h
    exact h1.2
  · rw [if_neg h1] at h
    exact resolveBare_mem h

lemma resolveAll_mem {scanDirName dir fullKey : String} {files : FilesMap} :
    ∀ (ts : List String) {k : String},
      k ∈ (resolveAll scanDirName files dir fullKey ts).1 → k ∈ keysOf files := by
  intro ts
  induction ts with
  | nil => intro k h; simp [resolveAll] at h
  | cons t ts ih =>
    intro k h
    simp only [resolveAll] at h
    split at h
    · rcases List.mem_cons.mp h with rfl | hmem
      · next heq => exact resolveKey_mem heq
      · exact ih hmem
    · exact ih h

lemma buildAux_targets {scanDirName : String} {files : FilesMap} :
    ∀ (l : List (String × FileInfo)) {k : String} {deps : List String},
      (k, deps) ∈ (buildAux scanDirName files l).1 →
      ∀ t ∈ deps, t ∈ keysOf files := by
  intro l
  induction l with
  | nil => intro k deps h; simp [buildAux] at h
  | cons e rest ih =>
    intro k deps h t ht
    obtain ⟨ek, einfo⟩ := e
    simp only [buildAux] at h
    rcases List.mem_cons.mp h with heq | hmem
    · obtain ⟨rfl, rfl⟩ := Prod.mk.injEq .. ▸ heq
      exact resolveAll_mem _ ht
    · exact ih hmem t ht

lemma buildAux_nodes {scanDirName : String} {files : FilesMap} :
    ∀ (l : List (String × FileInfo)),
      (buildAux scanDirName files l).1.map (·.1) = l.map (·.1) := by
  intro l
  induction l with
  | nil => rfl
  | cons e rest ih =>
    obtain ⟨ek, einfo⟩ := e
    simp only [buildAux, List.map_cons, ih]

lemma lookupGraph_total {g : List (String × List String)} {k : String}
    (h : k ∈ g.map (·.1)) : ∃ deps, lookupGraph g k = some deps := by
  induction g with
  | nil => simp at h
  | cons e rest ih =>
    by_cases he : e.1 = k
    · exact ⟨e.2, by simp [lookupGraph, List.find?_cons, he]⟩
    · have hk : k ∈ rest.map (·.1) := by
        rcases List.mem_cons.mp h with heq | hmem
        · exact absurd heq.symm he
        · exact hmem
      obtain ⟨deps, hd⟩ := ih hk
      refine ⟨deps, ?_⟩
      have hbe : (e.1 == k) = false := beq_eq_false_iff_ne.mpr he
      simpa [lookupGraph, List.find?_cons, hbe] using hd

lemma lookupGraph_mem {g : List (String × List String)} {k : String} {deps : List String}
    (h : lookupGraph g k = some deps) : (k, deps) ∈ g := by
  unfold lookupGraph at h
  obtain ⟨e, hfind, hsnd⟩ := Option.map_eq_some'.mp h
  have hpk := List.find?_some hfind
  have hmem : e ∈ g := List.mem_of_find?_eq_some hfind
  have : e = (k, deps) := by
    obtain ⟨e1, e2⟩ := e
    simp only at hsnd hpk
    have h1 : e1 = k := by simpa using hpk
    simp [h1, hsnd]
  exact this ▸ hmem

lemma mem_insertSorted {x a : String × FileInfo} :
    ∀ (l : FilesMap), a ∈ insertSorted x l ↔ a = x ∨ a ∈ l := by
  intro l
  induction l with
  | nil => simp [insertSorted]
  | cons y ys ih =>
    simp only [insertSorted]
    split
    · simp [List.mem_cons, or_comm, or_assoc, or_left_comm]
    · simp only [List.mem_cons, ih]
      tauto

lemma mem_sortByKey {a : String × FileInfo} :
    ∀ (l : FilesMap), a ∈ sortByKey l ↔ a ∈ l := by
  intro l
  induction l with
  | nil => simp [sortByKey]
  | cons y ys ih =>
    simp only [sortByKey, List.foldr_cons] at *
    rw [mem_insertSorted, ih, List.mem_cons]

/-- C2: for every file map, the dependency graph is a total mapping
whose node list is exactly the discovered key list (a file with no
resolvable imports maps to an empty list, never to an absent entry),
and every edge target appearing in any adjacency list is itself a key
present in the file map (no dangling edges). -/
theorem graph_total_mapping_no_dangling_edges (files : FilesMap) (scanDirName : String) :
    (build_dependency_graph files scanDirName).1.map (·.1) = keysOf files ∧
    (∀ k ∈ keysOf files,
      ∃ deps, lookupGraph (build_dependency_graph files scanDirName).1 k = some deps) ∧
    (∀ k deps, (k, deps) ∈ (build_dependency_graph files scanDirName).1 →
      ∀ t ∈ deps, t ∈ keysOf files) := by
  refine ⟨buildAux_nodes files, ?_, ?_⟩
  · intro k hk
    refine lookupGraph_total ?_
    show k ∈ (buildAux scanDirName files files).1.map (·.1)
    rw [buildAux_nodes files]
    exact hk
  · intro k deps h t ht
    exact buildAux_targets files h t ht

/-- C2 witness: a concrete three-file scan in which the graph node list
equals the key list and a concrete edge target is itself a key. -/
theorem graph_total_mapping_no_dangling_edges_witness :
    ("a/x", ["y"]) ∈ (build_dependency_graph
        (find_hoon_files "hoon" [(["a"], "x", ⟨["/+  y"], false⟩),
          (["a"], "y", ⟨[], false⟩), ([], "y", ⟨[], false⟩)]) "hoon").1 ∧
    "y" ∈ keysOf (find_hoon_files "hoon" [(["a"], "x", ⟨["/+  y"], false⟩),
          (["a"], "y", ⟨[], false⟩), ([], "y", ⟨[], false⟩)]) :=
  ⟨by decide, (graph_total_mapping_no_dangling_edges _ "hoon").2.2 "a/x" ["y"]
      (by decide) "y" (by decide)⟩

lemma getDepsAux_header_skip :
    ∀ (pre tail : List String) (t : Bool),
      (∀ l ∈ pre, pyStrip l = "" ∨ pyStartsWith "::" (pyStrip l)) →
      getDepsAux (pre ++ tail) t = getDepsAux tail t := by
  intro pre
  induction pre with
  | nil => intro tail t _; rfl
  | cons l ls ih =>
    intro tail t hpre
    have hl := hpre l (List.mem_cons_self l ls)
    have hls : ∀ x ∈ ls, pyStrip x = "" ∨ pyStartsWith "::" (pyStrip x) :=
      fun x hx => hpre x (List.mem_cons_of_mem l hx)
    rcases hl with hblank | hcom
    · show getDepsAux (l :: (ls ++ tail)) t = _
      simp only [getDepsAux]
      rw [if_pos hblank, ih tail t hls]
    · by_cases hblank : pyStrip l = ""
      · show getDepsAux (l :: (ls ++ tail)) t = _
        simp only [getDepsAux]
        rw [if_pos hblank, ih tail t hls]
      · have hor : pyStartsWith "/" (pyStrip l) ∨ pyStartsWith "::" (pyStrip l) :=
          Or.inr hcom
        show getDepsAux (l :: (ls ++ tail)) t = _
        simp only [getDepsAux]
        rw [if_neg hblank, if_neg (not_not_intro hor), if_pos hcom, ih tail t hls]

lemma pyStartsWith_slash_not_comment {l : String}
    (h : pyStartsWith "/" l) : ¬ pyStartsWith "::" l := by
  intro hc
  obtain ⟨t1, ht1⟩ := h
  obtain ⟨t2, ht2⟩ := hc
  rw [← ht1] at ht2
  have hd1 : ("/" : String).data = ['/'] := rfl
  have hd2 : ("::" : String).data = [':', ':'] := rfl
  rw [hd1] at ht2
  rw [hd2] at ht2
  injection ht2 with hhead _
  exact absurd hhead (by decide)

lemma pyStartsWith_slash_ne_empty {l : String}
    (h : pyStartsWith "/" l) : l ≠ "" := by
  intro he
  subst he
  obtain ⟨t1, ht1⟩ := h
  have hd1 : ("/" : String).data = ['/'] := rfl
  have hd2 : ("" : String).data = [] := rfl
  rw [hd1, hd2] at ht1
  simp at ht1

/-- C4 counterexample: the line `/?  310` is neither blank, nor a
comment, nor an import directive, yet a file beginning with it still
yields the token of a later `/+` line, so the claimed termination rule
is false as stated. -/
theorem header_terminator_counterexample :
    pyStrip "/?  310" ≠ "" ∧
    ¬ pyStartsWith "::" (pyStrip "/?  310") ∧
    ¬ isImportDirective "/?  310" ∧
    (get_dependencies ⟨["/?  310", "/+  foo"], false⟩).1 = ["foo"] := by
  refine ⟨by decide, by decide, by decide, by decide⟩

/-- C4 (amended): scanning reads lines from the top and the first line
that is neither blank, nor a comment, nor starts with the separator
character `/` terminates scanning; consequently a file whose first
non-blank, non-comment line does not start with `/` yields zero
dependency tokens (and no diagnostics), even if later lines contain
import-like syntax.  (Lines starting with `/` whose first token is not
a recognized marker are skipped, not terminators.) -/
theorem header_scan_stops_at_non_slash_line
    (pre rest : List String) (line : String) (t : Bool)
    (hpre : ∀ l ∈ pre, pyStrip l = "" ∨ pyStartsWith "::" (pyStrip l))
    (h1 : pyStrip line ≠ "")
    (h2 : ¬ pyStartsWith "::" (pyStrip line))
    (h3 : ¬ pyStartsWith "/" (pyStrip line)) :
    get_dependencies ⟨pre ++ line :: rest, t⟩ = ([], []) := by
  show getDepsAux (pre ++ line :: rest) t = ([], [])
  rw [getDepsAux_header_skip pre (line :: rest) t hpre]
  have hc : ¬ (pyStartsWith "/" (pyStrip line) ∨ pyStartsWith "::" (pyStrip line)) :=
    fun hor => hor.elim h3 h2
  simp only [getDepsAux]
  rw [if_neg h1, if_pos hc]

/-- C4 witness: a file opening with a comment and a blank line whose
first substantive line is `|%` yields no tokens even though a
`/+` header directive follows it. -/
theorem header_scan_stops_at_non_slash_line_witness :
    pyStrip "|%" ≠ "" ∧
    get_dependencies ⟨["::  top comment", ""] ++ "|%" :: ["/+  later"], true⟩ = ([], []) :=
  ⟨by decide, header_scan_stops_at_non_slash_line ["::  top comment", ""] ["/+  later"]
      "|%" true (by decide) (by decide) (by decide) (by decide)⟩

lemma getDepsAux_tokens_ignore_truncated :
    ∀ (lines : List String) (t : Bool),
      (getDepsAux lines t).1 = (getDepsAux lines false).1 := by
  intro lines
  induction lines with
  | nil => intro t; rfl
  | cons l ls ih =>
    intro t
    simp only [getDepsAux]
    by_cases hblank : pyStrip l = ""
    · simp only [if_pos hblank]
      exact ih t
    · simp only [if_neg hblank]
      by_cases hbr : ¬ (pyStartsWith "/" (pyStrip l) ∨ pyStartsWith "::" (pyStrip l))
      · simp only [if_pos hbr]
      · simp only [if_neg hbr]
        by_cases hcom : pyStartsWith "::" (pyStrip l)
        · simp only [if_pos hcom]
          exact ih t
        · simp only [if_neg hcom]
          show lineTokens (pyStrip l) ++ (getDepsAux ls t).1 =
            lineTokens (pyStrip l) ++ (getDepsAux ls false).1
          rw [ih t]

/-- C5 counterexample: a file whose read fails after one import line
(for example a decode error in mid-file) returns that line's token,
not an empty token list, so "returns an empty token list" is false as
stated for malformed files. -/
theorem unreadable_file_empty_counterexample :
    get_dependencies ⟨["/+  foo"], true⟩ = (["foo"], [Diag.readFail]) ∧
    (["foo"] : List String) ≠ ([] : List String) := by
  refine ⟨by decide, by decide⟩

/-- C5 (amended): the extractor is total (never raises): a read failure
is caught and contributes exactly one diagnostic while the returned
tokens are exactly those extracted from the successfully read lines; in
particular a file unreadable at open (no lines readable) contributes
zero dependency tokens. -/
theorem extraction_never_aborts (lines : List String) :
    (get_dependencies ⟨lines, true⟩).1 = (get_dependencies ⟨lines, false⟩).1 ∧
    get_dependencies ⟨[], true⟩ = ([], [Diag.readFail]) :=
  ⟨getDepsAux_tokens_ignore_truncated lines true, by decide⟩

/-- C10: a header line that begins with `/` but whose first
whitespace-separated token is not one of the four recognized markers
neither terminates header scanning nor produces any token: the scan
continues on the remaining lines unchanged. -/
theorem unrecognized_slash_line_skipped (line : String) (rest : List String) (t : Bool)
    (h1 : pyStartsWith "/" (pyStrip line))
    (h2 : (pySplitWs (pyStrip line)).headD "" ∉ (["/+", "/-", "/#", "/="] : List String)) :
    getDepsAux (line :: rest) t = getDepsAux rest t := by
  have hne : pyStrip line ≠ "" := pyStartsWith_slash_ne_empty h1
  have hnc : ¬ pyStartsWith "::" (pyStrip line) := pyStartsWith_slash_not_comment h1
  have hor : pyStartsWith "/" (pyStrip line) ∨ pyStartsWith "::" (pyStrip line) :=
    Or.inl h1
  simp only [getDepsAux]
  rw [if_neg hne, if_neg (not_not_intro hor), if_neg hnc]
  have hph : ¬ ((pySplitWs (pyStrip line)).headD "" = "/+" ∨
      (pySplitWs (pyStrip line)).headD "" = "/-" ∨
      (pySplitWs (pyStrip line)).headD "" = "/#") := by
    simp only [List.mem_cons, List.mem_singleton, not_or] at h2
    tauto
  have hpe : (pySplitWs (pyStrip line)).headD "" ≠ "/=" := by
    simp only [List.mem_cons, List.mem_singleton, not_or] at h2
    tauto
  have htok : lineTokens (pyStrip line) = [] := by
    unfold lineTokens
    rw [if_neg hph, if_neg hpe]
  rw [htok]
  simp

/-- C10 witness: the pragma-like line `/?  310` is skipped and a later
`/+` import line is still extracted. -/
theorem unrecognized_slash_line_skipped_witness :
    pyStartsWith "/" (pyStrip "/?  310") ∧
    getDepsAux ["/?  310", "/+  foo"] false = getDepsAux ["/+  foo"] false ∧
    (getDepsAux ["/+  foo"] false).1 = ["foo"] :=
  ⟨by decide, unrecognized_slash_line_skipped "/?  310" ["/+  foo"] false
      (by decide) (by decide), by decide⟩

/-- C7: every specifier of a named-import list is tokenized exactly as
the claim describes (trim, strip a leading wildcard marker, keep only
the right-hand alias of an assignment form, drop empties); in
particular `*foo=bar` yields the token `bar` and never `foo`, and empty
specifiers produce no token. -/
theorem specifier_tokenization_matches_claim :
    (∀ d, parseSpecifier d = specifierTokenOfClaim d) ∧
    parseSpecifier "*foo=bar" = some "bar" ∧
    parseSpecifier "*foo=bar" ≠ some "foo" ∧
    lineTokens "/+  foo, bar, *baz=qux" = ["foo", "bar", "qux"] ∧
    lineTokens "/+  foo, , bar" = ["foo", "bar"] := by
  refine ⟨?_, by decide, by decide, by decide, by decide⟩
  intro d
  simp only [parseSpecifier, specifierTokenOfClaim]
  by_cases hc : pyContainsChar '='
      (if pyStartsWith "*" (pyStrip d) then pyDrop 1 (pyStrip d) else pyStrip d)
  · simp only [if_pos hc]
    by_cases hz : pyStrip ((pySplit '='
        (if pyStartsWith "*" (pyStrip d) then pyDrop 1 (pyStrip d) else pyStrip d)).getLastD "") = ""
    · simp [hz]
    · simp [hz]
  · simp only [if_neg hc]
    by_cases hz : (if pyStartsWith "*" (pyStrip d) then pyDrop 1 (pyStrip d) else pyStrip d) = ""
    · simp [hz]
    · simp [hz]

/-- C1 counterexample: with discovered keys `a/x`, `a/y` and a root key
`y`, the import of bare name `y` by file `a/x` resolves to the root key
`y`, not to `a/y`: the directory the graph builder hands the resolver
is the install path `hoon/a`, so the same-directory probe is the absent
key `hoon/a/y`. -/
theorem same_directory_example_counterexample :
    lookupGraph (build_dependency_graph (find_hoon_files "hoon"
      [(["a"], "x", ⟨["/+  y"], false⟩), (["a"], "y", ⟨[], false⟩),
       ([], "y", ⟨[], false⟩)]) "hoon").1 "a/x" = some ["y"] ∧
    (some ["y"] : Option (List String)) ≠ some ["a/y"] := by
  refine ⟨by decide, by decide⟩

/-- C1 (amended): inside `resolve_dependency` the same-directory key
`{dir}/{bareName}` is tried before the root-level key and wins even
when the bare name is itself a key; but since the graph builder passes
the install path (which starts with the scan-root name) as `dir`, in a
scan with keys `a/x`, `a/y` and root key `y` the import of `y` by
`a/x` resolves to the root key `y`. -/
theorem same_directory_tried_before_root (files : FilesMap) (dir bare : String)
    (hslash : ¬ pyContainsChar '/' bare)
    (hdir : dir ≠ "")
    (hkey : sameDirKey dir bare ∈ keysOf files) :
    resolveKey bare dir files = some (sameDirKey dir bare) := by
  unfold resolveKey resolve_dependency
  rw [if_neg (fun hand => hslash hand.1), if_neg hslash]
  show (resolveBare bare dir files).1 = _
  unfold resolveBare
  rw [if_pos ⟨hdir, hkey⟩]

/-- C1 witness: with keys `d/b` and `b` both present, resolving bare
name `b` from directory `d` yields the same-directory key `d/b`, not
the root key `b`. -/
theorem same_directory_tried_before_root_witness :
    ¬ pyContainsChar '/' "b" ∧ ("d" : String) ≠ "" ∧
    sameDirKey "d" "b" ∈ keysOf
      [("d/b", ⟨⟨[], false⟩, "hoon/d", "b.hoon"⟩),
       ("b", ⟨⟨[], false⟩, "hoon", "b.hoon"⟩)] ∧
    resolveKey "b" "d"
      [("d/b", ⟨⟨[], false⟩, "hoon/d", "b.hoon"⟩),
       ("b", ⟨⟨[], false⟩, "hoon", "b.hoon"⟩)] = some (sameDirKey "d" "b") :=
  ⟨by decide, by decide, by decide,
    same_directory_tried_before_root _ "d" "b" (by decide) (by decide) (by decide)⟩

/-- C3 counterexample: the same input file tree enumerated in two
different orders makes the ambiguous bare name `dep` resolve to two
different keys (`pkg/dep` versus `other/dep`), so the selection is not
independent of the filesystem's directory-enumeration order. -/
theorem ambiguous_selection_order_dependent_counterexample :
    lookupGraph (build_dependency_graph (find_hoon_files "hoon"
      [(["pkg"], "dep", ⟨[], false⟩), (["other"], "dep", ⟨[], false⟩),
       (["x"], "imp", ⟨["/+  dep"], false⟩)]) "hoon").1 "x/imp" = some ["pkg/dep"] ∧
    lookupGraph (build_dependency_graph (find_hoon_files "hoon"
      [(["other"], "dep", ⟨[], false⟩), (["pkg"], "dep", ⟨[], false⟩),
       (["x"], "imp", ⟨["/+  dep"], false⟩)]) "hoon").1 "x/imp" = some ["other/dep"] ∧
    (some ["pkg/dep"] : Option (List String)) ≠ some ["other/dep"] := by
  refine ⟨by decide, by decide, by decide⟩

/-- C3 (amended): when the global suffix search yields more than one
candidate, the resolver emits a diagnostic listing all candidates and
returns the first candidate in `files.keys()` iteration order (the
enumeration/insertion order of discovery); the selection is therefore
deterministic for a fixed enumeration order but not independent of it. -/
theorem ambiguous_selects_first_in_map_order (dep dir : String) (files : FilesMap)
    (h : 2 ≤ (globalMatches files dep).length) :
    globalSearch dep dir files =
      ((globalMatches files dep).head?,
       [Diag.ambiguous dep dir (globalMatches files dep)]) := by
  unfold globalSearch
  cases hms : globalMatches files dep with
  | nil => rw [hms] at h; simp at h
  | cons m rest =>
    cases rest with
    | nil => rw [hms] at h; simp at h
    | cons m2 rest2 => rfl

/-- C3 witness: two candidate keys for `dep` produce the diagnostic
listing both and select the first one in map order. -/
theorem ambiguous_selects_first_in_map_order_witness :
    2 ≤ (globalMatches
      [("pkg/dep", ⟨⟨[], false⟩, "hoon/pkg", "dep.hoon"⟩),
       ("other/dep", ⟨⟨[], false⟩, "hoon/other", "dep.hoon"⟩)] "dep").length ∧
    globalSearch "dep" "hoon/x"
      [("pkg/dep", ⟨⟨[], false⟩, "hoon/pkg", "dep.hoon"⟩),
       ("other/dep", ⟨⟨[], false⟩, "hoon/other", "dep.hoon"⟩)] =
      (some "pkg/dep",
       [Diag.ambiguous "dep" "hoon/x" ["pkg/dep", "other/dep"]]) :=
  ⟨by decide,
    (ambiguous_selects_first_in_map_order "dep" "hoon/x" _ (by decide)).trans (by decide)⟩

/-- C6: a token that still contains a separator after the leading
scan-root-name prefix (if any) is stripped is first tried verbatim as a
key and, when present in the file map, that key is returned; when
absent, the token is reduced to its final segment and resolution
continues with rules 2-5 (`resolveBare`) on that bare name. -/
theorem path_token_verbatim_then_basename (scanDirName : String) (files : FilesMap)
    (dir tok : String)
    (hsl : pyContainsChar '/' (stripScanPfx scanDirName tok)) :
    (stripScanPfx scanDirName tok ∈ keysOf files →
      resolveToken scanDirName files dir tok = (some (stripScanPfx scanDirName tok), [])) ∧
    (stripScanPfx scanDirName tok ∉ keysOf files →
      resolveToken scanDirName files dir tok =
        resolveBare ((pySplit '/' (stripScanPfx scanDirName tok)).getLastD "") dir files) := by
  constructor
  · intro hmem
    unfold resolveToken resolve_dependency
    rw [if_pos ⟨hsl, hmem⟩]
  · intro hmem
    unfold resolveToken resolve_dependency
    rw [if_neg (fun hand => hmem hand.2), if_pos hsl]

/-- C6 witness: the path-import directive `/=  sys  /b/c` yields the
raw token `b/c`, and with a file `b/c` present that token resolves
verbatim to the key `b/c`. -/
theorem path_token_verbatim_then_basename_witness :
    (get_dependencies ⟨["/=  sys  /b/c"], false⟩).1 = ["b/c"] ∧
    pyContainsChar '/' (stripScanPfx "hoon" "b/c") ∧
    stripScanPfx "hoon" "b/c" ∈ keysOf [("b/c", ⟨⟨[], false⟩, "hoon/b", "c.hoon"⟩)] ∧
    resolveToken "hoon" [("b/c", ⟨⟨[], false⟩, "hoon/b", "c.hoon"⟩)] "hoon" "b/c" =
      (some "b/c", []) :=
  ⟨by decide, by decide, by decide,
    ((path_token_verbatim_then_basename "hoon" _ "hoon" "b/c" (by decide)).1
      (by decide)).trans (by decide)⟩

/-- C8: every fully-qualified dependency name listed in any emitted
package record corresponds to a package record present in the same
manifest: one record is emitted per discovered file and every graph
edge targets a discovered key. -/
theorem manifest_deps_have_records (workspaceName scanDirName : String) (files : FilesMap) :
    ∀ r ∈ generate_registry_packages workspaceName files
        (build_dependency_graph files scanDirName).1,
      ∀ d ∈ r.dependencies,
        ∃ r2 ∈ generate_registry_packages workspaceName files
            (build_dependency_graph files scanDirName).1,
          r2.name = d := by
  intro r hr d hd
  obtain ⟨e, he, rfl⟩ := List.mem_map.mp hr
  obtain ⟨t, ht, rfl⟩ := List.mem_map.mp hd
  have htk : t ∈ keysOf files := by
    cases hlk : lookupGraph (build_dependency_graph files scanDirName).1 e.1 with
    | none => rw [hlk] at ht; simp at ht
    | some deps =>
      rw [hlk] at ht
      simp only [Option.getD_some] at ht
      exact buildAux_targets files (lookupGraph_mem hlk) t ht
  obtain ⟨et, het, hetk⟩ := List.mem_map.mp htk
  refine ⟨_, List.mem_map_of_mem _ ((mem_sortByKey files).mpr het), ?_⟩
  show workspaceName ++ "/" ++ et.1 = workspaceName ++ "/" ++ t
  rw [hetk]

/-- C8 witness: in a concrete two-file scan the record for `a/x` lists
the dependency `nockchain/y`, and a record named `nockchain/y` exists
in the same manifest. -/
theorem manifest_deps_have_records_witness :
    ({ name := "nockchain/a/x", workspace := "nockchain", path := "hoon/a",
       file := "x.hoon", dependencies := ["nockchain/y"] } : PackageRecord) ∈
      generate_registry_packages "nockchain"
        (find_hoon_files "hoon" [(["a"], "x", ⟨["/+  y"], false⟩), ([], "y", ⟨[], false⟩)])
        (build_dependency_graph
          (find_hoon_files "hoon" [(["a"], "x", ⟨["/+  y"], false⟩), ([], "y", ⟨[], false⟩)])
          "hoon").1 ∧
    ∃ r2 ∈ generate_registry_packages "nockchain"
        (find_hoon_files "hoon" [(["a"], "x", ⟨["/+  y"], false⟩), ([], "y", ⟨[], false⟩)])
        (build_dependency_graph
          (find_hoon_files "hoon" [(["a"], "x", ⟨["/+  y"], false⟩), ([], "y", ⟨[], false⟩)])
          "hoon").1,
      r2.name = "nockchain/y" :=
  ⟨by decide,
    manifest_deps_have_records "nockchain" "hoon"
      (find_hoon_files "hoon" [(["a"], "x", ⟨["/+  y"], false⟩), ([], "y", ⟨[], false⟩)])
      { name := "nockchain/a/x", workspace := "nockchain", path := "hoon/a",
        file := "x.hoon", dependencies := ["nockchain/y"] }
      (by decide) "nockchain/y" (by decide)⟩

lemma pyData_append (a b : String) : (a ++ b).data = a.data ++ b.data := by
  cases a; cases b; rfl

lemma pyStartsWith_self_append (a b : String) : pyStartsWith a (a ++ b) := by
  unfold pyStartsWith
  rw [pyData_append]
  exact List.prefix_append _ _

lemma pyStartsWith_append_right {p a : String} (h : pyStartsWith p a) (b : String) :
    pyStartsWith p (a ++ b) := by
  unfold pyStartsWith at h ⊢
  rw [pyData_append]
  exact h.trans (List.prefix_append _ _)

lemma splitChar_ne_nil (c : Char) (l : List Char) : splitChar c l ≠ [] := by
  cases l with
  | nil => simp [splitChar]
  | cons x xs =>
    simp only [splitChar]
    split <;> simp

lemma splitChar_eq_single {c : Char} : ∀ {l : List Char}, c ∉ l → splitChar c l = [l] := by
  intro l
  induction l with
  | nil => intro _; rfl
  | cons x xs ih =>
    intro h
    have hx : x ≠ c := fun he => h (he ▸ List.mem_cons_self x xs)
    have hxs : c ∉ xs := fun hm => h (List.mem_cons_of_mem x hm)
    simp only [splitChar, ih hxs]
    rw [if_neg hx]
    simp

lemma splitChar_append_cons {c : Char} : ∀ {a : List Char} (b : List Char), c ∉ a →
    splitChar c (a ++ c :: b) = a :: splitChar c b := by
  intro a
  induction a with
  | nil =>
    intro b _
    show splitChar c (c :: b) = [] :: splitChar c b
    simp [splitChar]
  | cons x xs ih =>
    intro b h
    have hx : x ≠ c := fun he => h (he ▸ List.mem_cons_self x xs)
    have hxs : c ∉ xs := fun hm => h (List.mem_cons_of_mem x hm)
    show splitChar c (x :: (xs ++ c :: b)) = (x :: xs) :: splitChar c b
    simp only [splitChar, ih b hxs]
    rw [if_neg hx]
    simp

lemma pySplit_no_sep {s : String} (h : ¬ pyContainsChar '/' s) : pySplit '/' s = [s] := by
  unfold pySplit
  rw [splitChar_eq_single h]
  rfl

lemma pySplit_sep_append {a : String} (b : String) (h : ¬ pyContainsChar '/' a) :
    pySplit '/' (a ++ "/" ++ b) = a :: pySplit '/' b := by
  unfold pySplit
  have hd : (a ++ "/" ++ b).data = a.data ++ '/' :: b.data := by
    rw [pyData_append, pyData_append]
    show (a.data ++ ['/']) ++ b.data = a.data ++ '/' :: b.data
    rw [List.append_assoc]
    rfl
  rw [hd, splitChar_append_cons b.data h]
  rfl

lemma pySplit_ne_nil (c : Char) (s : String) : pySplit c s ≠ [] := by
  unfold pySplit
  intro h
  exact splitChar_ne_nil c s.data (List.map_eq_nil_iff.mp h)

lemma pyJoin_cons_shape (s : String) (l : List String) :
    pyJoin "/" (s :: l) = s ∨ ∃ j, pyJoin "/" (s :: l) = s ++ "/" ++ j := by
  cases l with
  | nil => exact Or.inl rfl
  | cons y ys => exact Or.inr ⟨pyJoin "/" (y :: ys), rfl⟩

lemma dropLast_cons_ne {α : Type} {x : α} {l : List α} (h : l ≠ []) :
    (x :: l).dropLast = x :: l.dropLast := by
  cases l with
  | nil => exact absurd rfl h
  | cons y ys => rfl

lemma dictInsert_forall {P : String × FileInfo → Prop} {k : String} {v : FileInfo}
    {d : FilesMap} (hv : P (k, v)) (hd : ∀ e ∈ d, P e) :
    ∀ e ∈ dictInsert k v d, P e := by
  intro e he
  unfold dictInsert at he
  split_ifs at he with hmem
  · obtain ⟨x, hx, hfx⟩ := List.mem_map.mp he
    by_cases hxk : x.1 = k
    · rw [if_pos hxk] at hfx
      exact hfx ▸ hv
    · rw [if_neg hxk] at hfx
      exact hfx ▸ hd x hx
  · rcases List.mem_append.mp he with h1 | h2
    · exact hd e h1
    · rw [List.mem_singleton] at h2
      exact h2 ▸ hv

lemma find_hoon_files_forall {P : String × FileInfo → Prop} (scanDirName : String)
    (hP : ∀ f, P (discoveredEntry scanDirName f)) :
    ∀ (found : List (List String × String × FileContent)),
      ∀ e ∈ find_hoon_files scanDirName found, P e := by
  have haux : ∀ (fs : List (List String × String × FileContent)) (acc : FilesMap),
      (∀ e ∈ acc, P e) →
      ∀ e ∈ fs.foldl (fun d f =>
        dictInsert (discoveredEntry scanDirName f).1 (discoveredEntry scanDirName f).2 d) acc,
        P e := by
    intro fs
    induction fs with
    | nil => intro acc hacc e he; exact hacc e he
    | cons f fsr ih =>
      intro acc hacc e he
      rw [List.foldl_cons] at he
      exact ih _ (dictInsert_forall (hP f) hacc) e he
  intro found e he
  exact haux found [] (by intro x hx; simp at hx) e he

lemma discoveredEntry_install_shape (scanDirName : String)
    (f : List String × String × FileContent) :
    (discoveredEntry scanDirName f).2.installPath = scanDirName ∨
      ∃ r, (discoveredEntry scanDirName f).2.installPath = scanDirName ++ "/" ++ r := by
  unfold discoveredEntry
  by_cases h : pyJoin "/" f.1 = ""
  · left
    show (if pyJoin "/" f.1 ≠ "" then scanDirName ++ "/" ++ pyJoin "/" f.1 else scanDirName) =
      scanDirName
    rw [if_neg (not_not_intro h)]
  · right
    refine ⟨pyJoin "/" f.1, ?_⟩
    show (if pyJoin "/" f.1 ≠ "" then scanDirName ++ "/" ++ pyJoin "/" f.1 else scanDirName) =
      scanDirName ++ "/" ++ pyJoin "/" f.1
    rw [if_pos h]

/-- C9: the directory handed to the resolver for every discovered file
is the install path, which is the scan-root name or starts with it
followed by a separator; hence, when no discovered key equals the
scan-root name or starts with it (that is, no key has the scan-root
directory name as its first path segment), the same-directory probe and
the sibling probe never match a key, and a bare-name token resolves
exactly as the root-level rule followed by the global suffix search. -/
theorem install_dir_bypasses_same_dir_and_sibling
    (scanDirName : String) (found : List (List String × String × FileContent))
    (hscanSl : ¬ pyContainsChar '/' scanDirName)
    (hkeys : ∀ k ∈ keysOf (find_hoon_files scanDirName found),
      ¬ (k = scanDirName ∨ pyStartsWith (scanDirName ++ "/") k))
    (e : String × FileInfo) (he : e ∈ find_hoon_files scanDirName found)
    (bare : String) (hb : ¬ pyContainsChar '/' bare) :
    (e.2.installPath = scanDirName ∨
      ∃ r, e.2.installPath = scanDirName ++ "/" ++ r) ∧
    sameDirKey e.2.installPath bare ∉ keysOf (find_hoon_files scanDirName found) ∧
    (1 < (pySplit '/' e.2.installPath).length →
      siblingKey e.2.installPath bare ∉ keysOf (find_hoon_files scanDirName found)) ∧
    resolveKey bare e.2.installPath (find_hoon_files scanDirName found) =
      rootOrGlobalKey bare e.2.installPath (find_hoon_files scanDirName found) := by
  have hshape := @find_hoon_files_forall
    (fun x => x.2.installPath = scanDirName ∨ ∃ r, x.2.installPath = scanDirName ++ "/" ++ r)
    scanDirName (discoveredEntry_install_shape scanDirName) found e he
  have hsame : sameDirKey e.2.installPath bare ∉
      keysOf (find_hoon_files scanDirName found) := by
    intro hmem
    refine hkeys _ hmem (Or.inr ?_)
    unfold sameDirKey
    rcases hshape with hdir | ⟨r, hdir⟩
    · rw [hdir]
      exact pyStartsWith_self_append _ bare
    · rw [hdir]
      exact pyStartsWith_append_right
        (pyStartsWith_append_right (pyStartsWith_self_append _ r) "/") bare
  have hsib : 1 < (pySplit '/' e.2.installPath).length →
      siblingKey e.2.installPath bare ∉ keysOf (find_hoon_files scanDirName found) := by
    intro hlen hmem
    refine hkeys _ hmem (Or.inr ?_)
    unfold siblingKey
    rcases hshape with hdir | ⟨r, hdir⟩
    · rw [hdir, pySplit_no_sep hscanSl] at hlen
      exact absurd hlen (by simp)
    · rw [hdir, pySplit_sep_append r hscanSl]
      have hps : pySplit '/' r ≠ [] := pySplit_ne_nil '/' r
      rw [dropLast_cons_ne hps]
      rcases pyJoin_cons_shape scanDirName (pySplit '/' r).dropLast with hj | ⟨j, hj⟩
      · rw [hj]
        exact pyStartsWith_self_append _ bare
      · rw [hj]
        exact pyStartsWith_append_right
          (pyStartsWith_append_right (pyStartsWith_self_append _ j) "/") bare
  refine ⟨hshape, hsame, hsib, ?_⟩
  unfold resolveKey resolve_dependency
  rw [if_neg (fun hand => hb hand.1), if_neg hb]
  show (resolveBare bare e.2.installPath (find_hoon_files scanDirName found)).1 = _
  unfold resolveBare rootOrGlobalKey
  rw [if_neg (fun hand => hsame hand.2)]
  by_cases hroot : bare ∈ keysOf (find_hoon_files scanDirName found)
  · rw [if_pos hroot, if_pos hroot]
  · rw [if_neg hroot, if_neg hroot,
      if_neg (fun hand => (hsib hand.2.1) hand.2.2)]

/-- C9 witness: in a concrete scan with keys `a/x` and `y` (none headed
by the scan-root name `hoon`), resolving the bare name `y` from the
install directory `hoon/a` coincides with root-level-then-global
resolution. -/
theorem install_dir_bypasses_same_dir_and_sibling_witness :
    ¬ pyContainsChar '/' "hoon" ∧
    ("a/x", (⟨⟨[], false⟩, "hoon/a", "x.hoon"⟩ : FileInfo)) ∈
      find_hoon_files "hoon" [(["a"], "x", ⟨[], false⟩), ([], "y", ⟨[], false⟩)] ∧
    resolveKey "y" "hoon/a"
        (find_hoon_files "hoon" [(["a"], "x", ⟨[], false⟩), ([], "y", ⟨[], false⟩)]) =
      rootOrGlobalKey "y" "hoon/a"
        (find_hoon_files "hoon" [(["a"], "x", ⟨[], false⟩), ([], "y", ⟨[], false⟩)]) :=
  ⟨by decide, by decide,
    (install_dir_bypasses_same_dir_and_sibling "hoon"
      [(["a"], "x", ⟨[], false⟩), ([], "y", ⟨[], false⟩)] (by decide) (by decide)
      ("a/x", ⟨⟨[], false⟩, "hoon/a", "x.hoon"⟩) (by decide) "y" (by decide)).2.2.2⟩
